import Mathlib

/-!
Verification development for the xFasterTransformer decoding orchestrator
(`CommonDecoder` in the reviewed header) and the MPI/oneCCL topology setup
(`init` in the communication helper).  The definitions below are a shallow
embedding of the control flow and state updates of those source functions;
machine `int` values are modelled as `Nat` (all the quantities involved are
non-negative counters, ranks and sizes and never overflow in the scenarios
considered).
-/

namespace xft

/-! ### Decoding session state

Embeds the cross-step scalar members of `CommonDecoder`:
`initSeqLen`, `accSeqLen`, `prefixSeqLen`, `prefixSharing`
(declarations near the end of the class; initialised in the constructor). -/

structure SessionState where
  initSeqLen : Nat
  accSeqLen : Nat
  prefixSeqLen : Nat
  prefixSharing : Bool
deriving DecidableEq, Repr

/-- Embeds the session-counter updates performed by one `CommonDecoder::forward`
call (src/unnamed/part_001, lines 266-297): when `step == 0` the call sets
`initSeqLen = seqLen` and `accSeqLen = 0`; every call then performs
`accSeqLen += seqLen` (the `seqLen` local is never reassigned, so the full
incoming length is added even on the prefix-sharing path, where only the
separate `inputSeqLen` local is shrunk). -/
def forwardSession (st : SessionState) (step seqLen : Nat) : SessionState :=
  let st1 := if step = 0 then { st with initSeqLen := seqLen, accSeqLen := 0 } else st
  { st1 with accSeqLen := st1.accSeqLen + seqLen }

/-- A whole session: fold `forwardSession` over a list of `(step, seqLen)` calls. -/
def runForwards (st : SessionState) (calls : List (Nat × Nat)) : SessionState :=
  calls.foldl (fun s c => forwardSession s c.1 c.2) st

/-- Embeds `pastSeqLen` as computed by `forward`
(line 259, overridden at line 271 on the step-0 prefix-sharing path). -/
def fwdPastSeqLen (st : SessionState) (step : Nat) : Nat :=
  if step = 0 then (if st.prefixSharing then st.prefixSeqLen else 0) else st.accSeqLen

/-- Embeds `inputSeqLen` as computed by `forward`
(line 260, overridden at line 272 on the step-0 prefix-sharing path). -/
def fwdInputSeqLen (st : SessionState) (step seqLen : Nat) : Nat :=
  if step = 0 ∧ st.prefixSharing then seqLen - st.prefixSeqLen else seqLen

/-- Embeds `batchSize` as computed by `forward` (line 257). -/
def fwdBatchSize (step userSideBS beamSize : Nat) : Nat :=
  if step = 0 then userSideBS else userSideBS * beamSize

theorem forwardSession_step0 (st : SessionState) (s : Nat) :
    forwardSession st 0 s
      = { st with initSeqLen := s, accSeqLen := s } := by
  simp [forwardSession]

theorem forwardSession_pos (st : SessionState) (step s : Nat) (h : 0 < step) :
    forwardSession st step s = { st with accSeqLen := st.accSeqLen + s } := by
  have : ¬ step = 0 := Nat.pos_iff_ne_zero.mp h
  simp [forwardSession, this]

theorem runForwards_pos (calls : List (Nat × Nat)) :
    ∀ st : SessionState, (∀ c ∈ calls, 0 < c.1) →
      runForwards st calls
        = { st with accSeqLen := st.accSeqLen + (calls.map Prod.snd).sum } := by
  induction calls with
  | nil => intro st _; simp [runForwards]
  | cons c rest ih =>
      intro st hpos
      have hc : 0 < c.1 := hpos c (List.mem_cons_self c rest)
      have hrest : ∀ d ∈ rest, 0 < d.1 := fun d hd => hpos d (List.mem_cons_of_mem c hd)
      have : runForwards st (c :: rest)
          = runForwards (forwardSession st c.1 c.2) rest := by
        simp [runForwards]
      rw [this, forwardSession_pos st c.1 c.2 hc, ih _ hrest]
      simp [Nat.add_assoc]

/-- C1: in a session that starts with a `step == 0` call of length `s0` and
continues with `step > 0` calls, `accSeqLen` after call `i` (that is, after the
step-0 call followed by the first `i` decode calls) equals the sum of the
lengths so far, and `initSeqLen` stays equal to `s0`: the step-0 call resets
`accSeqLen` to `0` and sets `initSeqLen` before accumulating. -/
theorem accSeqLen_is_sum (st : SessionState) (s0 : Nat) (rest : List (Nat × Nat))
    (i : Nat) (hps : st.prefixSharing = false) (hpos : ∀ c ∈ rest, 0 < c.1) :
    (runForwards st ((0, s0) :: rest.take i)).accSeqLen
        = s0 + (((rest.take i).map Prod.snd).sum)
      ∧ (runForwards st ((0, s0) :: rest.take i)).initSeqLen = s0 := by
  have hstep : runForwards st ((0, s0) :: rest.take i)
      = runForwards (forwardSession st 0 s0) (rest.take i) := by
    simp [runForwards]
  have hpos' : ∀ c ∈ rest.take i, 0 < c.1 := fun c hc => hpos c (List.mem_of_mem_take hc)
  rw [hstep, forwardSession_step0,
    runForwards_pos (rest.take i) _ hpos']
  exact ⟨rfl, rfl⟩

/-- Witness for `accSeqLen_is_sum` at a concrete session:
prompt length 3, then decode calls of lengths 4 and 5. -/
theorem accSeqLen_is_sum_witness :
    (⟨0, 0, 0, false⟩ : SessionState).prefixSharing = false
      ∧ (∀ c ∈ [((1 : Nat), (4 : Nat)), (2, 5)], 0 < c.1)
      ∧ (runForwards ⟨0, 0, 0, false⟩
            ((0, 3) :: ([((1 : Nat), (4 : Nat)), (2, 5)].take 2))).accSeqLen
          = 3 + ((([((1 : Nat), (4 : Nat)), (2, 5)].take 2).map Prod.snd).sum)
      ∧ (runForwards ⟨0, 0, 0, false⟩
            ((0, 3) :: ([((1 : Nat), (4 : Nat)), (2, 5)].take 2))).initSeqLen = 3 :=
  ⟨by decide, by decide,
    (accSeqLen_is_sum ⟨0, 0, 0, false⟩ 3 [(1, 4), (2, 5)] 2 (by decide) (by decide)).1,
    (accSeqLen_is_sum ⟨0, 0, 0, false⟩ 3 [(1, 4), (2, 5)] 2 (by decide) (by decide)).2⟩

/-- C10: at a `step == 0` call with prefix sharing active, `accSeqLen` is
incremented by the full incoming `seqLen`, i.e. it ends up equal to
`prefixSeqLen + inputSeqLen` (prefix tokens included), not to the processed
`inputSeqLen = seqLen - prefixSeqLen` alone. -/
theorem accSeqLen_counts_prefix_tokens (st : SessionState) (seqLen : Nat)
    (hps : st.prefixSharing = true) (hle : st.prefixSeqLen ≤ seqLen)
    (h0 : 0 < st.prefixSeqLen) :
    (forwardSession st 0 seqLen).accSeqLen = seqLen
      ∧ (forwardSession st 0 seqLen).accSeqLen
          = st.prefixSeqLen + fwdInputSeqLen st 0 seqLen
      ∧ fwdInputSeqLen st 0 seqLen < seqLen := by
  have hin : fwdInputSeqLen st 0 seqLen = seqLen - st.prefixSeqLen := by
    simp [fwdInputSeqLen, hps]
  refine ⟨by simp [forwardSession], ?_, ?_⟩
  · rw [forwardSession_step0, hin]
    simpa using (Nat.add_sub_cancel' hle).symm
  · rw [hin]; omega

/-- Witness for `accSeqLen_counts_prefix_tokens`: prefix length 16, prompt length 20. -/
theorem accSeqLen_counts_prefix_tokens_witness :
    (⟨0, 7, 16, true⟩ : SessionState).prefixSharing = true
      ∧ (⟨0, 7, 16, true⟩ : SessionState).prefixSeqLen ≤ 20
      ∧ 0 < (⟨0, 7, 16, true⟩ : SessionState).prefixSeqLen
      ∧ (forwardSession ⟨0, 7, 16, true⟩ 0 20).accSeqLen = 20
      ∧ (forwardSession ⟨0, 7, 16, true⟩ 0 20).accSeqLen
          = 16 + fwdInputSeqLen ⟨0, 7, 16, true⟩ 0 20 :=
  ⟨by decide, by decide, by decide,
    (accSeqLen_counts_prefix_tokens ⟨0, 7, 16, true⟩ 20 (by decide) (by decide) (by decide)).1,
    (accSeqLen_counts_prefix_tokens ⟨0, 7, 16, true⟩ 20 (by decide) (by decide) (by decide)).2.1⟩

/-! ### Parallel topology (`init`, src/unnamed/part_000 lines 44-51)

`init` receives the pipeline-stage count in `*world_color` and computes
`*world_color = *world_rank / (*world_size / *world_color)`, then calls
`MPI_Comm_split(MPI_COMM_WORLD, color, world_rank, &row_comm)`.  `MPI_Comm_split`
groups together the ranks sharing the same color, ordered by the key
(here the world rank); the row size/rank become the TP size/rank. -/

/-- Embeds the color computation `world_rank / (world_size / pp_num)`
(src/unnamed/part_000, line 45).  Division is C integer division on
non-negative values, i.e. `Nat` division. -/
def worldColor (worldSize worldRank ppStages : Nat) : Nat :=
  worldRank / (worldSize / ppStages)

/-- Embeds the row communicator produced by `MPI_Comm_split` (line 47): the
ranks `< worldSize` whose color equals `color`, in world-rank (key) order. -/
def rowGroup (worldSize ppStages color : Nat) : List Nat :=
  (List.range worldSize).filter (fun r => worldColor worldSize r ppStages = color)

/-- Embeds `row_size` (line 50): the size of this process's row communicator. -/
def tpSizeOf (worldSize ppStages worldRank : Nat) : Nat :=
  (rowGroup worldSize ppStages (worldColor worldSize worldRank ppStages)).length

/-- Embeds `row_rank` (line 51): the position of this rank inside its row
communicator, i.e. the number of lower world ranks sharing its color. -/
def tpRankOf (worldSize ppStages worldRank : Nat) : Nat :=
  ((List.range worldRank).filter
    (fun r => worldColor worldSize r ppStages = worldColor worldSize worldRank ppStages)).length

/-- C3: `init` computes the pipeline color as `R / (W / P)` and splits the
global group by that color; for `W = 8, P = 2` every rank ends up with
`tpSize = 4`, ranks 0-3 share color 0 and form the 4-way group `[0,1,2,3]`,
ranks 4-7 share color 1 and form `[4,5,6,7]`. -/
theorem init_topology (W R P : Nat) (hR : R < 8) :
    worldColor W R P = R / (W / P)
      ∧ worldColor 8 R 2 = (if R < 4 then 0 else 1)
      ∧ tpSizeOf 8 2 R = 4
      ∧ rowGroup 8 2 (worldColor 8 R 2) = (if R < 4 then [0, 1, 2, 3] else [4, 5, 6, 7])
      ∧ tpRankOf 8 2 R = R % 4 := by
  refine ⟨rfl, ?_⟩
  revert hR
  revert R
  decide

/-- Witness for `init_topology` at rank 5 of 8 with 2 pipeline stages. -/
theorem init_topology_witness :
    5 < 8
      ∧ (worldColor 8 5 2 = (if 5 < 4 then 0 else 1)
          ∧ tpSizeOf 8 2 5 = 4
          ∧ rowGroup 8 2 (worldColor 8 5 2) = (if 5 < 4 then [0, 1, 2, 3] else [4, 5, 6, 7])
          ∧ tpRankOf 8 2 5 = 5 % 4) :=
  ⟨by decide, (init_topology 8 5 2 (by decide)).2⟩

/-! ### Layer assignment (`CommonDecoder::CommonDecoder`,
src/unnamed/part_001 lines 215-225)

```
int layers_per_pp_stage = layers / pp_size;
int start_layer = pp_rank * layers_per_pp_stage;
for (int i = start_layer; i < start_layer + layers_per_pp_stage; ++i) { ... }
```
-/

/-- Embeds `layers_per_pp_stage = layers / pp_size` (line 219). -/
def layersPerStage (layers ppSize : Nat) : Nat := layers / ppSize

/-- Embeds `start_layer = pp_rank * layers_per_pp_stage` (line 220). -/
def startLayer (layers ppSize ppRank : Nat) : Nat :=
  ppRank * layersPerStage layers ppSize

/-- Embeds the constructor loop (lines 221-225): the layer indices
`start_layer, ..., start_layer + layers_per_pp_stage - 1` owned by this stage. -/
def assignedLayers (layers ppSize ppRank : Nat) : List Nat :=
  List.range' (startLayer layers ppSize ppRank) (layersPerStage layers ppSize)

theorem mem_assignedLayers (layers ppSize ppRank l : Nat) :
    l ∈ assignedLayers layers ppSize ppRank
      ↔ ppRank * (layers / ppSize) ≤ l ∧ l < (ppRank + 1) * (layers / ppSize) := by
  unfold assignedLayers startLayer layersPerStage
  rw [List.mem_range']
  constructor
  · rintro ⟨i, hi, rfl⟩
    constructor
    · omega
    · have : (ppRank + 1) * (layers / ppSize) = ppRank * (layers / ppSize) + layers / ppSize := by
        ring
      omega
  · rintro ⟨h1, h2⟩
    refine ⟨l - ppRank * (layers / ppSize), ?_, ?_⟩
    · have : (ppRank + 1) * (layers / ppSize) = ppRank * (layers / ppSize) + layers / ppSize := by
        ring
      omega
    · omega

/-- C4: the constructor assigns stage `ppRank` exactly the contiguous range
`[ppRank * (layers / ppSize), (ppRank + 1) * (layers / ppSize))`; when
`ppSize` divides `layers`, every stage owns `layers / ppSize` layers and each
layer below `layers` belongs to exactly one stage below `ppSize`. -/
theorem layer_partition (layers ppSize : Nat) (hdvd : ppSize ∣ layers)
    (hpp : 0 < ppSize) :
    (∀ ppRank l : Nat,
        l ∈ assignedLayers layers ppSize ppRank
          ↔ ppRank * (layers / ppSize) ≤ l ∧ l < (ppRank + 1) * (layers / ppSize))
      ∧ (∀ ppRank : Nat, (assignedLayers layers ppSize ppRank).length = layers / ppSize)
      ∧ (∀ l : Nat, l < layers →
          ∃! r : Nat, r < ppSize ∧ l ∈ assignedLayers layers ppSize r) := by
  obtain ⟨q, hq⟩ := hdvd
  have hdiv : layers / ppSize = q := by
    rw [hq, Nat.mul_div_cancel_left q hpp]
  refine ⟨fun ppRank l => mem_assignedLayers layers ppSize ppRank l, ?_, ?_⟩
  · intro ppRank
    simp [assignedLayers, layersPerStage]
  · intro l hl
    have hq0 : 0 < q := by
      rcases Nat.eq_zero_or_pos q with h0 | h0
      · subst h0; simp at hq; omega
      · exact h0
    have hdm : q * (l / q) + l % q = l := Nat.div_add_mod l q
    have hm : l % q < q := Nat.mod_lt l hq0
    have hcomm : q * (l / q) = (l / q) * q := Nat.mul_comm q (l / q)
    have hlW : l < ppSize * q := by omega
    refine ⟨l / q, ⟨?_, ?_⟩, ?_⟩
    · by_contra hcon
      push_neg at hcon
      have : ppSize * q ≤ (l / q) * q := Nat.mul_le_mul_right q hcon
      omega
    · rw [mem_assignedLayers, hdiv]
      have hsucc : (l / q + 1) * q = (l / q) * q + q := by ring
      exact ⟨by omega, by omega⟩
    · rintro r ⟨hr, hmem⟩
      rw [mem_assignedLayers, hdiv] at hmem
      obtain ⟨h1, h2⟩ := hmem
      have hsr : (r + 1) * q = r * q + q := by ring
      rcases Nat.lt_trichotomy r (l / q) with hlt | heq | hgt
      · have : (r + 1) * q ≤ (l / q) * q := Nat.mul_le_mul_right q hlt
        omega
      · exact heq
      · have : (l / q + 1) * q ≤ r * q := Nat.mul_le_mul_right q hgt
        have hsucc : (l / q + 1) * q = (l / q) * q + q := by ring
        omega

/-- Witness for `layer_partition`: 32 layers over 4 stages; also checks the
concrete facts that stage 1 is `[8, ..., 15]` and layer 13 belongs to it. -/
theorem layer_partition_witness :
    (4 ∣ 32) ∧ 0 < 4
      ∧ ((∀ ppRank l : Nat,
            l ∈ assignedLayers 32 4 ppRank
              ↔ ppRank * (32 / 4) ≤ l ∧ l < (ppRank + 1) * (32 / 4))
          ∧ (∀ ppRank : Nat, (assignedLayers 32 4 ppRank).length = 32 / 4)
          ∧ (∀ l : Nat, l < 32 → ∃! r : Nat, r < 4 ∧ l ∈ assignedLayers 32 4 r))
      ∧ assignedLayers 32 4 1 = [8, 9, 10, 11, 12, 13, 14, 15] :=
  ⟨by decide, by decide, layer_partition 32 4 (by decide) (by decide), by decide⟩

/-! ### Decoder context creation (`CommonDecoder::getDecoderContext`,
src/unnamed/part_001 lines 573-599)

If a context already exists, the code compares `hiddenSize`, `attHeadNum`,
`kvHeadNum`, `intermediateSize` and `splitIdx` with the requested values:
on a full match it returns `context.get()` unchanged, otherwise it prints
an error and calls `exit(-1)`.  Only when no context exists does it
construct a fresh `DecoderContext`. -/

/-- The shape parameters compared by `getDecoderContext` (lines 585-587). -/
structure CtxParams where
  hiddenSize : Nat
  attHeadNum : Nat
  kvHeadNum : Nat
  intermediateSize : Nat
  splitIdx : Nat
deriving DecidableEq, Repr

/-- Outcome of a `getDecoderContext` call: return the existing context,
terminate the process via `exit(-1)`, or construct a fresh context. -/
inductive CtxOutcome where
  | existing : CtxOutcome
  | fatal : CtxOutcome
  | fresh : CtxParams → CtxOutcome
deriving DecidableEq, Repr

/-- Embeds `CommonDecoder::getDecoderContext` (lines 584-598): the branch on
whether a context already exists and the five-field compatibility test. -/
def getDecoderContext (cur : Option CtxParams) (req : CtxParams) : CtxOutcome :=
  match cur with
  | some c =>
      if c.hiddenSize = req.hiddenSize ∧ c.attHeadNum = req.attHeadNum
          ∧ c.kvHeadNum = req.kvHeadNum ∧ c.intermediateSize = req.intermediateSize
          ∧ c.splitIdx = req.splitIdx then
        CtxOutcome.existing
      else
        CtxOutcome.fatal
  | none => CtxOutcome.fresh req

/-- C9: when a context already exists, `getDecoderContext` either returns the
existing context (exactly when the five compared shape parameters match) or
terminates fatally; it never constructs a second context. -/
theorem getDecoderContext_no_second (c req : CtxParams) :
    (getDecoderContext (some c) req = CtxOutcome.existing
        ∨ getDecoderContext (some c) req = CtxOutcome.fatal)
      ∧ (getDecoderContext (some c) req = CtxOutcome.existing
          ↔ (c.hiddenSize = req.hiddenSize ∧ c.attHeadNum = req.attHeadNum
              ∧ c.kvHeadNum = req.kvHeadNum ∧ c.intermediateSize = req.intermediateSize
              ∧ c.splitIdx = req.splitIdx))
      ∧ (∀ o : CtxParams, getDecoderContext (some c) req = CtxOutcome.fresh o → False) := by
  have hred : getDecoderContext (some c) req
      = if c.hiddenSize = req.hiddenSize ∧ c.attHeadNum = req.attHeadNum
            ∧ c.kvHeadNum = req.kvHeadNum ∧ c.intermediateSize = req.intermediateSize
            ∧ c.splitIdx = req.splitIdx then
          CtxOutcome.existing
        else CtxOutcome.fatal := rfl
  rw [hred]
  by_cases h : c.hiddenSize = req.hiddenSize ∧ c.attHeadNum = req.attHeadNum
      ∧ c.kvHeadNum = req.kvHeadNum ∧ c.intermediateSize = req.intermediateSize
      ∧ c.splitIdx = req.splitIdx
  · rw [if_pos h]
    refine ⟨Or.inl rfl, ?_, fun o ho => CtxOutcome.noConfusion ho⟩
    exact Iff.intro (fun _ => h) (fun _ => rfl)
  · rw [if_neg h]
    refine ⟨Or.inr rfl, ?_, fun o ho => CtxOutcome.noConfusion ho⟩
    exact Iff.intro (fun he => CtxOutcome.noConfusion he) (fun hm => absurd hm h)

/-! ### KV cache reordering (C5)

`CommonDecoder::reorderCache` (src/unnamed/part_001 lines 522-523) forwards to
`kvCacheMgr->reorderCache(idx, size, initSeqLen, accSeqLen)`.  The
`KVCacheManager` implementation itself is not part of the reviewed sources,
so its effect is modelled from the specification. -/

/-- Modelled from the spec: `KVCacheManager::reorderCache` (the manager's
implementation is not under the reviewed sources; only the forwarding call in
`CommonDecoder::reorderCache` is).  Per the spec it "permutes the batch×beam
dimension of every layer's K/V cache, but only over the half-open range of
time-steps `[initSeqLen, accSeqLen)` — the originally-shared prompt/prefix
portion at `[0, initSeqLen)` is left untouched".  The cache is modelled as a
map `layer → isKey → timeStep → row → value`; rows `≥ size` are outside the
batch×beam dimension and untouched. -/
def reorderCache {α : Type} (cache : Nat → Bool → Nat → Nat → α) (idx : Nat → Nat)
    (size initSeqLen accSeqLen : Nat) : Nat → Bool → Nat → Nat → α :=
  fun layer isKey t r =>
    if initSeqLen ≤ t ∧ t < accSeqLen ∧ r < size then cache layer isKey t (idx r)
    else cache layer isKey t r

/-- Embeds `CommonDecoder::reorderCache` (src/unnamed/part_001 line 523): the
orchestrator forwards the session's `initSeqLen` and `accSeqLen` to the cache
manager. -/
def decoderReorderCache {α : Type} (st : SessionState) (cache : Nat → Bool → Nat → Nat → α)
    (idx : Nat → Nat) (size : Nat) : Nat → Bool → Nat → Nat → α :=
  reorderCache cache idx size st.initSeqLen st.accSeqLen

/-- C5: for any row-index map `idx` into `[0, size)`, `reorderCache` (as
invoked by `CommonDecoder::reorderCache` with the session's counters) only
permutes rows over the time-step range `[initSeqLen, accSeqLen)` — time steps
below `initSeqLen` are untouched for every layer, key/value and row — and
with the identity map the entire cache is unchanged. -/
theorem reorderCache_spec {α : Type} (st : SessionState)
    (cache : Nat → Bool → Nat → Nat → α) (idx : Nat → Nat) (size : Nat)
    (hidx : ∀ r, r < size → idx r < size) :
    (∀ layer isKey t r, t < st.initSeqLen →
        decoderReorderCache st cache idx size layer isKey t r
          = cache layer isKey t r)
      ∧ (∀ layer isKey t r, st.initSeqLen ≤ t → t < st.accSeqLen → r < size →
          decoderReorderCache st cache idx size layer isKey t r
            = cache layer isKey t (idx r))
      ∧ decoderReorderCache st cache (fun r => r) size = cache := by
  refine ⟨?_, ?_, ?_⟩
  · intro layer isKey t r ht
    have : ¬ (st.initSeqLen ≤ t ∧ t < st.accSeqLen ∧ r < size) := by omega
    simp [decoderReorderCache, reorderCache, this]
  · intro layer isKey t r h1 h2 h3
    simp [decoderReorderCache, reorderCache, h1, h2, h3]
  · funext layer isKey t r
    by_cases h : st.initSeqLen ≤ t ∧ t < st.accSeqLen ∧ r < size
    · simp [decoderReorderCache, reorderCache, h]
    · simp [decoderReorderCache, reorderCache, h]

/-- Witness for `reorderCache_spec`: a session with `initSeqLen = 3`,
`accSeqLen = 5`, a 2-row swap on a concrete cache. -/
theorem reorderCache_spec_witness :
    (∀ r, r < 2 → (fun r => 1 - r) r < 2)
      ∧ ((∀ layer isKey t r, t < (⟨3, 5, 0, false⟩ : SessionState).initSeqLen →
            decoderReorderCache ⟨3, 5, 0, false⟩
              (fun layer isKey t r => layer + 10 * t + 100 * r)
              (fun r => 1 - r) 2 layer isKey t r
              = layer + 10 * t + 100 * r)
          ∧ (∀ layer isKey t r, (⟨3, 5, 0, false⟩ : SessionState).initSeqLen ≤ t →
              t < (⟨3, 5, 0, false⟩ : SessionState).accSeqLen → r < 2 →
              decoderReorderCache ⟨3, 5, 0, false⟩
                (fun layer isKey t r => layer + 10 * t + 100 * r)
                (fun r => 1 - r) 2 layer isKey t r
                = layer + 10 * t + 100 * (1 - r))
          ∧ decoderReorderCache ⟨3, 5, 0, false⟩
              (fun layer isKey t r => layer + 10 * t + 100 * r)
              (fun r => r) 2
              = fun layer isKey t r => layer + 10 * t + 100 * r) :=
  ⟨fun r hr => by show 1 - r < 2; omega,
    reorderCache_spec ⟨3, 5, 0, false⟩
      (fun layer isKey t r => layer + 10 * t + 100 * r)
      (fun r => 1 - r) 2 (fun r hr => by show 1 - r < 2; omega)⟩

/-! ### Last-token selection before the final layer norm (C7)

`CommonDecoder::forward`, src/unnamed/part_001 lines 382-392:
```
MlpOutT *lnIn = embBuf;
if (inputSeqLen > 1 && !logitsAll) {
    lnIn = outBuf;
    for (int b = 0; b < batchSize; ++b)
        memcpy(lnIn + b * hiddenSize,
               embBuf + ((b + 1) * inputSeqLen - 1) * hiddenSize, ...);
}
```
Buffers are modelled at row granularity (a row is one `hiddenSize`-element
vector); `memcpy` of a whole row is a row assignment. -/

/-- Embeds the copy loop (lines 387-391): row `b < batchSize` of the result is
row `(b + 1) * inputSeqLen - 1` of `embBuf`; rows beyond `batchSize` keep the
previous `outBuf` content. -/
def lastTokenCopy {α : Type} (embBuf outBuf : Nat → α) (batchSize inputSeqLen : Nat) :
    Nat → α :=
  fun r => if r < batchSize then embBuf ((r + 1) * inputSeqLen - 1) else outBuf r

/-- Embeds the `lnIn` selection (lines 384-392): copy the last token per
sequence into `outBuf` only when `inputSeqLen > 1` and `logitsAll` is false,
otherwise use `embBuf` in place. -/
def lnInput {α : Type} (embBuf outBuf : Nat → α) (batchSize inputSeqLen : Nat)
    (logitsAll : Bool) : Nat → α :=
  if 1 < inputSeqLen ∧ logitsAll = false then
    lastTokenCopy embBuf outBuf batchSize inputSeqLen
  else
    embBuf

/-- C7: on the last stage with `logitsAll = false` and `inputSeqLen > 1`,
exactly row `(b + 1) * inputSeqLen - 1` of the activation buffer is fed to the
layer-norm input for every batch row `b < batchSize`; when `inputSeqLen = 1`
or `logitsAll = true` no copy is made and the activation buffer is used in
place. -/
theorem lnInput_last_token {α : Type} (embBuf outBuf : Nat → α)
    (batchSize inputSeqLen : Nat) (logitsAll : Bool) :
    (1 < inputSeqLen → logitsAll = false → ∀ b, b < batchSize →
        lnInput embBuf outBuf batchSize inputSeqLen logitsAll b
          = embBuf ((b + 1) * inputSeqLen - 1))
      ∧ (inputSeqLen = 1 ∨ logitsAll = true →
          lnInput embBuf outBuf batchSize inputSeqLen logitsAll = embBuf) := by
  constructor
  · intro hn hla b hb
    simp [lnInput, hn, hla, lastTokenCopy, hb]
  · intro h
    have : ¬ (1 < inputSeqLen ∧ logitsAll = false) := by
      rcases h with h | h
      · omega
      · simp [h]
    simp [lnInput, this]

/-- Witness for `lnInput_last_token`: `seqLen = 10`, two sequences; row 1 of
the layer-norm input is token row 19 (the 10th token of the 2nd sequence);
and with `seqLen = 1` the buffer is used unchanged. -/
theorem lnInput_last_token_witness :
    ((1 : Nat) < 10 ∧ false = false ∧ (1 : Nat) < 2
        ∧ lnInput (fun r => r) (fun _ => 999) 2 10 false 1 = 19)
      ∧ ((1 : Nat) = 1
          ∧ lnInput (fun r => r) (fun _ => 999) 2 1 false = fun r => r) :=
  ⟨⟨by decide, rfl, by decide,
      (lnInput_last_token (fun r => r) (fun _ => 999) 2 10 false).1
        (by decide) rfl 1 (by decide)⟩,
    rfl,
    (lnInput_last_token (fun r => r) (fun _ => 999) 2 1 false).2 (Or.inl rfl)⟩

/-! ### Beam expansion of the logits (C2)

`CommonDecoder::forward`, src/unnamed/part_001 lines 424-436:
```
if (step == 0 && beamSize > 1) {
    const int splitSize = this->predictor->getSplitSize();
    for (int b = userSideBS - 1; b >= 0; --b) {
        float *src = finalOut + b * splitSize;
        for (int idx = b * beamSize; idx < (b + 1) * beamSize; ++idx) {
            if (idx == b) { continue; }
            float *dst = finalOut + idx * splitSize;
            memcpy(dst, src, splitSize * sizeof(float));
        }
    }
}
```
The buffer is modelled at row granularity (a row is one `splitSize`-element
logits vector); each `memcpy` is a whole-row assignment that reads `src` from
the buffer's current state, so the sequential write order (outer `b`
descending, self-copy skipped) is modelled exactly. -/

/-- Embeds the inner loop for a fixed `b` (lines 430-434): walk the row
indices `idxs` in order, skip `idx == b`, otherwise overwrite row `idx` with
the current content of row `b`. -/
def beamRowCopy {α : Type} (buf : Nat → α) (b : Nat) : List Nat → Nat → α
  | [] => buf
  | idx :: rest =>
      if idx = b then beamRowCopy buf b rest
      else beamRowCopy (fun r => if r = idx then buf b else buf r) b rest

/-- Embeds the outer loop (lines 427-435) with the source's descending order:
`beamExpandLoop beamSize n buf` runs the body for `b = n - 1, n - 2, ..., 0`,
the body for `b` being `beamRowCopy` over `idx ∈ [b*beamSize, (b+1)*beamSize)`. -/
def beamExpandLoop {α : Type} (beamSize : Nat) : Nat → (Nat → α) → Nat → α
  | 0, buf => buf
  | n + 1, buf =>
      beamExpandLoop beamSize n (beamRowCopy buf n (List.range' (n * beamSize) beamSize))

/-- Embeds the whole `step == 0 && beamSize > 1` logits-expansion block. -/
def beamExpandLogits {α : Type} (buf : Nat → α) (userSideBS beamSize : Nat) : Nat → α :=
  beamExpandLoop beamSize userSideBS buf

theorem beamRowCopy_self {α : Type} (b : Nat) (idxs : List Nat) :
    ∀ buf : Nat → α, beamRowCopy buf b idxs b = buf b := by
  induction idxs with
  | nil => intro buf; rfl
  | cons idx rest ih =>
      intro buf
      by_cases h : idx = b
      · simp [beamRowCopy, h, ih]
      · simp only [beamRowCopy, if_neg h]
        rw [ih]
        simp [Ne.symm h]

theorem beamRowCopy_not_mem {α : Type} (b r : Nat) (idxs : List Nat) (hr : r ∉ idxs) :
    ∀ buf : Nat → α, beamRowCopy buf b idxs r = buf r := by
  induction idxs with
  | nil => intro buf; rfl
  | cons idx rest ih =>
      intro buf
      have hr1 : r ≠ idx := fun h => hr (h ▸ List.mem_cons_self idx rest)
      have hr2 : r ∉ rest := fun h => hr (List.mem_cons_of_mem idx h)
      by_cases h : idx = b
      · simp only [beamRowCopy, if_pos h]
        exact ih hr2 buf
      · simp only [beamRowCopy, if_neg h]
        rw [ih hr2]
        simp [hr1]

theorem beamRowCopy_mem {α : Type} (b r : Nat) (idxs : List Nat)
    (hm : r ∈ idxs) (hrb : r ≠ b) :
    ∀ buf : Nat → α, beamRowCopy buf b idxs r = buf b := by
  induction idxs with
  | nil => cases hm
  | cons idx rest ih =>
      intro buf
      by_cases h : idx = b
      · have hr : r ∈ rest := by
          rcases List.mem_cons.mp hm with h1 | h1
          · exact absurd (h1.trans h) hrb
          · exact h1
        simp only [beamRowCopy, if_pos h]
        exact ih hr buf
      · simp only [beamRowCopy, if_neg h]
        by_cases hrest : r ∈ rest
        · rw [ih hrest]
          simp [Ne.symm h]
        · have hridx : r = idx := by
            rcases List.mem_cons.mp hm with h1 | h1
            · exact h1
            · exact absurd h1 hrest
          rw [beamRowCopy_not_mem b r rest hrest]
          simp [hridx]

theorem beamExpandLoop_high {α : Type} (beamSize : Nat) :
    ∀ n : Nat, ∀ buf : Nat → α, ∀ r : Nat, n * beamSize ≤ r →
      beamExpandLoop beamSize n buf r = buf r := by
  intro n
  induction n with
  | zero => intro buf r _; rfl
  | succ n ih =>
      intro buf r hr
      have hle : (n + 1) * beamSize = n * beamSize + beamSize := by ring
      have hnm : r ∉ List.range' (n * beamSize) beamSize := by
        simp only [List.mem_range'_1]
        omega
      simp only [beamExpandLoop]
      rw [ih _ r (by omega), beamRowCopy_not_mem _ _ _ hnm]

theorem beamExpandLoop_copies {α : Type} (beamSize : Nat) (hbeam : 0 < beamSize) :
    ∀ n : Nat, ∀ buf : Nat → α, ∀ b idx : Nat, b < n →
      b * beamSize ≤ idx → idx < (b + 1) * beamSize →
      beamExpandLoop beamSize n buf idx = buf b := by
  intro n
  induction n with
  | zero => intro buf b idx hb _ _; cases hb
  | succ n ih =>
      intro buf b idx hb h1 h2
      simp only [beamExpandLoop]
      rcases Nat.lt_succ_iff_lt_or_eq.mp hb with hlt | heq
      · rw [ih _ b idx hlt h1 h2]
        have hbn : b < n * beamSize := by
          have : n ≤ n * beamSize := Nat.le_mul_of_pos_right n hbeam
          omega
        have hnm : b ∉ List.range' (n * beamSize) beamSize := by
          simp only [List.mem_range'_1]
          omega
        exact beamRowCopy_not_mem _ _ _ hnm buf
      · subst heq
        have hsucc : (b + 1) * beamSize = b * beamSize + beamSize := by ring
        rw [beamExpandLoop_high beamSize b _ idx h1]
        by_cases hidx : idx = b
        · subst hidx
          exact beamRowCopy_self _ _ buf
        · have hm : idx ∈ List.range' (b * beamSize) beamSize := by
            simp only [List.mem_range'_1]
            omega
          exact beamRowCopy_mem _ _ _ hm hidx buf

/-- C2: after the step-0 `beamSize > 1` logits-expansion block, every row
`idx ∈ [b*beamSize, (b+1)*beamSize)` holds exactly the row the projection
produced for user batch row `b`, for every `b < userSideBS` — an
identical-copy broadcast to all beam siblings. -/
theorem beamExpandLogits_broadcast {α : Type} (buf : Nat → α)
    (userSideBS beamSize b idx : Nat) (hbeam : 1 < beamSize) (hb : b < userSideBS)
    (h1 : b * beamSize ≤ idx) (h2 : idx < (b + 1) * beamSize) :
    beamExpandLogits buf userSideBS beamSize idx = buf b :=
  beamExpandLoop_copies beamSize (by omega) userSideBS buf b idx hb h1 h2

/-- Witness for `beamExpandLogits_broadcast`: `userSideBS = 2`, `beamSize = 3`;
row 4 (a beam sibling of user row 1) receives user row 1's logits. -/
theorem beamExpandLogits_broadcast_witness :
    (1 : Nat) < 3 ∧ (1 : Nat) < 2 ∧ 1 * 3 ≤ 4 ∧ 4 < (1 + 1) * 3
      ∧ beamExpandLogits (fun r => 100 + r) 2 3 4 = 100 + 1 :=
  ⟨by decide, by decide, by decide, by decide,
    beamExpandLogits_broadcast (fun r => 100 + r) 2 3 1 4
      (by decide) (by decide) (by decide) (by decide)⟩

/-! ### The forward call as an event trace (C6, C8)

`CommonDecoder::forward` (src/unnamed/part_001 lines 249-443) is embedded as
the ordered list of orchestration actions it performs around the pure compute
kernels, plus the returned result.  Events record the arguments the source
passes; the kernels themselves (attention, FFN, layer norm, projection) are
out-of-scope collaborators, so an event stands for the call, not its numeric
effect.  The step-0 prefix-sharing split of the token-id matrix (lines
274-279) is embedded separately as `prefixIdsRow` / `newIdsRow`. -/

inductive FwdEvent where
  | positionIds : Nat → Nat → Nat → FwdEvent
  | embedding : Nat → Nat → FwdEvent
  | prepareMask : Nat → FwdEvent
  | mpiRecv : Nat → Nat → FwdEvent
  | expandPrefixCache : Nat → Nat → Nat → FwdEvent
  | attention : Nat → Nat → Nat → FwdEvent
  | expandCache : Nat → Nat → Nat → Nat → FwdEvent
  | reduceAddAttn : Nat → FwdEvent
  | ffn : Nat → FwdEvent
  | reduceAddFfn : Nat → FwdEvent
  | mpiSend : Nat → Nat → FwdEvent
deriving DecidableEq, Repr

/-- Result of a `forward` call: the non-last pipeline stage returns the
sentinel tuple `(nullptr, 0, 0)` (line 379); the last stage returns the
logits pointer with this rank's vocabulary split offset and size (line 441). -/
inductive FwdResult where
  | sentinel : FwdResult
  | logits : Nat → Nat → FwdResult
deriving DecidableEq, Repr

/-- Shape and topology arguments of one `forward` call: the `dims` input
(`userSideBS`, `beamSize`, `seqLen`), the step index, the `logitsAll` flag,
this process's pipeline coordinates, its local layer count
(`decoders.size()`), the TP group size (`messenger.getSize()`), and the
`ATTN_MLP_PARALLEL` template flag. -/
structure FwdParams where
  userSideBS : Nat
  beamSize : Nat
  seqLen : Nat
  step : Nat
  logitsAll : Bool
  ppRank : Nat
  ppSize : Nat
  numLayers : Nat
  workers : Nat
  parallelAttnMlp : Bool
deriving DecidableEq, Repr

/-- Embeds one iteration of the per-layer loop (lines 324-373): optionally
expand the prefix cache (lines 326-329, step 0 with prefix sharing, before the
attention call), run attention (line 336), optionally expand the KV cache for
beams (line 346), reduce-add the attention output unless running
attention/MLP in parallel (lines 350-354), run the FFN (lines 357-371), and
reduce-add its output when there are multiple TP workers. -/
def layerEvents (st : SessionState) (p : FwdParams) (inputSeqLen pastSeqLen i : Nat) :
    List FwdEvent :=
  (if p.step = 0 ∧ st.prefixSharing
    then [FwdEvent.expandPrefixCache i p.userSideBS st.prefixSeqLen] else [])
  ++ [FwdEvent.attention i inputSeqLen pastSeqLen]
  ++ (if p.step = 0 ∧ 1 < p.beamSize
      then [FwdEvent.expandCache i p.userSideBS p.beamSize p.seqLen] else [])
  ++ (if p.parallelAttnMlp = false ∧ 1 < p.workers then [FwdEvent.reduceAddAttn i] else [])
  ++ [FwdEvent.ffn i]
  ++ (if 1 < p.workers then [FwdEvent.reduceAddFfn i] else [])

/-- Embeds the pre-layer part of `forward` (lines 266-319): on the step-0
prefix-sharing path, position ids are refreshed from the prefix portion
(line 281) before anything else; then token embedding of the (possibly
shortened) input (line 296), attention-mask preparation (line 309), position
ids for the new tokens (line 312, step argument `step + prefixSharing`), and
a blocking receive from the previous pipeline stage when `pp_rank > 0`
(lines 316-319, source rank `pp_rank - 1`, tag `100 * (pp_rank - 1)`). -/
def fwdPreEvents (st : SessionState) (p : FwdParams) : List FwdEvent :=
  (if p.step = 0 ∧ st.prefixSharing
    then [FwdEvent.positionIds (fwdBatchSize p.step p.userSideBS p.beamSize)
            (fwdPastSeqLen st p.step) 0] else [])
  ++ [FwdEvent.embedding (fwdBatchSize p.step p.userSideBS p.beamSize)
        (fwdInputSeqLen st p.step p.seqLen)]
  ++ [FwdEvent.prepareMask (p.step + (if st.prefixSharing then 1 else 0))]
  ++ [FwdEvent.positionIds (fwdBatchSize p.step p.userSideBS p.beamSize)
        (fwdInputSeqLen st p.step p.seqLen)
        (p.step + (if st.prefixSharing then 1 else 0))]
  ++ (if 0 < p.ppRank then [FwdEvent.mpiRecv (p.ppRank - 1) (100 * (p.ppRank - 1))] else [])

/-- Embeds the layer loop (lines 324-373) over the locally owned layers. -/
def fwdBodyEvents (st : SessionState) (p : FwdParams) : List FwdEvent :=
  (List.range p.numLayers).flatMap
    (layerEvents st p (fwdInputSeqLen st p.step p.seqLen) (fwdPastSeqLen st p.step))

/-- Embeds `forward`'s control flow as events plus result (lines 266-443):
after the layer loop, a non-last stage (`pp_rank < pp_size - 1`, line 375)
block-sends the activation to `pp_rank + 1` with tag `100 * pp_rank` and
returns the sentinel tuple; the last stage runs the norm/projection path and
returns the logits with this rank's vocabulary split. -/
def forwardTrace (st : SessionState) (p : FwdParams) (splitOffset splitSize : Nat) :
    List FwdEvent × FwdResult :=
  if p.ppRank < p.ppSize - 1 then
    (fwdPreEvents st p ++ fwdBodyEvents st p
        ++ [FwdEvent.mpiSend (p.ppRank + 1) (100 * p.ppRank)],
      FwdResult.sentinel)
  else
    (fwdPreEvents st p ++ fwdBodyEvents st p, FwdResult.logits splitOffset splitSize)

theorem forwardTrace_events (st : SessionState) (p : FwdParams) (so ss : Nat) :
    (forwardTrace st p so ss).1
      = fwdPreEvents st p
          ++ (fwdBodyEvents st p
              ++ (if p.ppRank < p.ppSize - 1
                  then [FwdEvent.mpiSend (p.ppRank + 1) (100 * p.ppRank)] else [])) := by
  unfold forwardTrace
  by_cases h : p.ppRank < p.ppSize - 1 <;> simp [h]

theorem flatMap_range_split {β : Type} (f : Nat → List β) (L i : Nat) (hi : i < L) :
    (List.range L).flatMap f
      = (List.range' 0 i).flatMap f
          ++ (f i ++ (List.range' (i + 1) (L - i - 1)).flatMap f) := by
  have h0 : (L - i) + i = L := by omega
  have h1 : List.range' 0 i ++ List.range' i (L - i) = List.range' 0 L := by
    have h := List.range'_append_1 0 i (L - i)
    rw [Nat.zero_add] at h
    rw [h, h0]
  have h2 : List.range' i (L - i) = i :: List.range' (i + 1) (L - i - 1) := by
    have hk : L - i = (L - i - 1) + 1 := by omega
    rw [hk]
    rfl
  rw [List.range_eq_range', ← h1, h2]
  simp

/-! ### The step-0 prefix-sharing split of the token ids (lines 274-279)

```
int *prefixIDs = (int *)malloc(userSideBS * pastSeqLen * sizeof(int));
int *newIDs = (int *)malloc(userSideBS * inputSeqLen * sizeof(int));
for (int bs = 0; bs < userSideBS; bs++) {
    memcpy(prefixIDs + pastSeqLen * bs, ids + seqLen * bs, pastSeqLen * sizeof(int));
    memcpy(newIDs + inputSeqLen * bs, ids + seqLen * bs + pastSeqLen, inputSeqLen * sizeof(int));
}
```
The flat `ids` buffer is a map `Nat → ℤ`; each `memcpy` materialises one
row of the destination array. -/

/-- Row `bs` of `prefixIDs`: the first `pastSeqLen` tokens of input row `bs`. -/
def prefixIdsRow (ids : Nat → ℤ) (seqLen pastSeqLen bs : Nat) : List ℤ :=
  (List.range pastSeqLen).map (fun j => ids (seqLen * bs + j))

/-- Row `bs` of `newIDs`: the tokens of input row `bs` after the prefix. -/
def newIdsRow (ids : Nat → ℤ) (seqLen pastSeqLen inputSeqLen bs : Nat) : List ℤ :=
  (List.range inputSeqLen).map (fun j => ids (seqLen * bs + pastSeqLen + j))

/-- The whole `prefixIDs` array, rows concatenated. -/
def prefixIdsArr (ids : Nat → ℤ) (userSideBS seqLen pastSeqLen : Nat) : List ℤ :=
  (List.range userSideBS).flatMap (prefixIdsRow ids seqLen pastSeqLen)

/-- The whole `newIDs` array, rows concatenated. -/
def newIdsArr (ids : Nat → ℤ) (userSideBS seqLen pastSeqLen inputSeqLen : Nat) : List ℤ :=
  (List.range userSideBS).flatMap (newIdsRow ids seqLen pastSeqLen inputSeqLen)

theorem prefix_split_row (ids : Nat → ℤ) (seqLen pastSeqLen bs : Nat)
    (hle : pastSeqLen ≤ seqLen) :
    prefixIdsRow ids seqLen pastSeqLen bs
        ++ newIdsRow ids seqLen pastSeqLen (seqLen - pastSeqLen) bs
      = (List.range seqLen).map (fun j => ids (seqLen * bs + j)) := by
  unfold prefixIdsRow newIdsRow
  have h0 : (seqLen - pastSeqLen) + pastSeqLen = seqLen := by omega
  have h1 : List.range' 0 pastSeqLen ++ List.range' pastSeqLen (seqLen - pastSeqLen)
      = List.range' 0 seqLen := by
    have h := List.range'_append_1 0 pastSeqLen (seqLen - pastSeqLen)
    rw [Nat.zero_add] at h
    rw [h, h0]
  have h2 : List.range' pastSeqLen (seqLen - pastSeqLen)
      = (List.range (seqLen - pastSeqLen)).map (fun j => pastSeqLen + j) := by
    rw [List.range_eq_range']
    have := List.map_add_range' pastSeqLen 0 (seqLen - pastSeqLen) 1
    rw [Nat.add_zero] at this
    rw [← this]
  have h3 : (List.range (seqLen - pastSeqLen)).map (fun j => ids (seqLen * bs + pastSeqLen + j))
      = (List.range' pastSeqLen (seqLen - pastSeqLen)).map (fun j => ids (seqLen * bs + j)) := by
    rw [h2, List.map_map]
    congr 1
    funext j
    simp only [Function.comp]
    congr 1
    omega
  calc (List.range pastSeqLen).map (fun j => ids (seqLen * bs + j))
        ++ (List.range (seqLen - pastSeqLen)).map (fun j => ids (seqLen * bs + pastSeqLen + j))
      = (List.range' 0 pastSeqLen).map (fun j => ids (seqLen * bs + j))
          ++ (List.range' pastSeqLen (seqLen - pastSeqLen)).map (fun j => ids (seqLen * bs + j)) := by
        rw [List.range_eq_range', h3]
    _ = ((List.range' 0 pastSeqLen) ++ (List.range' pastSeqLen (seqLen - pastSeqLen))).map
          (fun j => ids (seqLen * bs + j)) := (List.map_append _ _ _).symm
    _ = (List.range' 0 seqLen).map (fun j => ids (seqLen * bs + j)) := by rw [h1]
    _ = (List.range seqLen).map (fun j => ids (seqLen * bs + j)) := by
        rw [← List.range_eq_range']

/-- C8: on a non-last pipeline stage (`pp_rank < pp_size - 1`), `forward`
returns the sentinel tuple `(nullptr, 0, 0)` and its final action is the
blocking send of the layer stack's output activation to stage `pp_rank + 1`
with message tag `100 * pp_rank`; consequently a non-last stage never
returns a logits result. -/
theorem forward_nonlast_sentinel (st : SessionState) (p : FwdParams) (so ss : Nat)
    (h : p.ppRank < p.ppSize - 1) :
    (forwardTrace st p so ss).2 = FwdResult.sentinel
      ∧ (forwardTrace st p so ss).1
          = (fwdPreEvents st p ++ fwdBodyEvents st p)
              ++ [FwdEvent.mpiSend (p.ppRank + 1) (100 * p.ppRank)] := by
  constructor
  · simp [forwardTrace, h]
  · simp [forwardTrace, h, List.append_assoc]

/-- Witness for `forward_nonlast_sentinel`: stage 0 of a 2-stage pipeline. -/
theorem forward_nonlast_sentinel_witness :
    (⟨1, 1, 4, 0, false, 0, 2, 2, 1, false⟩ : FwdParams).ppRank
        < (⟨1, 1, 4, 0, false, 0, 2, 2, 1, false⟩ : FwdParams).ppSize - 1
      ∧ (forwardTrace ⟨0, 0, 0, false⟩ ⟨1, 1, 4, 0, false, 0, 2, 2, 1, false⟩ 0 100).2
          = FwdResult.sentinel
      ∧ (forwardTrace ⟨0, 0, 0, false⟩ ⟨1, 1, 4, 0, false, 0, 2, 2, 1, false⟩ 0 100).1
          = (fwdPreEvents ⟨0, 0, 0, false⟩ ⟨1, 1, 4, 0, false, 0, 2, 2, 1, false⟩
                ++ fwdBodyEvents ⟨0, 0, 0, false⟩ ⟨1, 1, 4, 0, false, 0, 2, 2, 1, false⟩)
              ++ [FwdEvent.mpiSend (0 + 1) (100 * 0)] :=
  ⟨by decide,
    (forward_nonlast_sentinel ⟨0, 0, 0, false⟩ ⟨1, 1, 4, 0, false, 0, 2, 2, 1, false⟩
      0 100 (by decide)).1,
    (forward_nonlast_sentinel ⟨0, 0, 0, false⟩ ⟨1, 1, 4, 0, false, 0, 2, 2, 1, false⟩
      0 100 (by decide)).2⟩

/-- C6: at a step-0 call with prefix sharing active, the input is split so
that `inputSeqLen = seqLen - prefixSeqLen`; each input row is exactly the
concatenation of its `prefixSeqLen`-token prefix portion and its
`inputSeqLen`-token new-token portion; the trace starts by refreshing
position ids from the prefix portion (the only use of the prefix tokens)
and then embeds only the `inputSeqLen` new tokens; and for every locally
owned layer `i` the prefix cache is expanded to `userSideBS` rows
immediately before that layer's attention call. -/
theorem prefix_sharing_split (st : SessionState) (p : FwdParams) (so ss : Nat)
    (ids : Nat → ℤ) (i : Nat)
    (hps : st.prefixSharing = true) (hstep : p.step = 0)
    (hle : st.prefixSeqLen ≤ p.seqLen) (hi : i < p.numLayers) :
    fwdInputSeqLen st p.step p.seqLen = p.seqLen - st.prefixSeqLen
      ∧ (∀ bs : Nat,
          prefixIdsRow ids p.seqLen st.prefixSeqLen bs
              ++ newIdsRow ids p.seqLen st.prefixSeqLen (p.seqLen - st.prefixSeqLen) bs
            = (List.range p.seqLen).map (fun j => ids (p.seqLen * bs + j)))
      ∧ (∃ B, (forwardTrace st p so ss).1
            = FwdEvent.positionIds p.userSideBS st.prefixSeqLen 0
                :: FwdEvent.embedding p.userSideBS (p.seqLen - st.prefixSeqLen) :: B)
      ∧ (∃ A B, (forwardTrace st p so ss).1
            = A ++ (FwdEvent.expandPrefixCache i p.userSideBS st.prefixSeqLen
                :: FwdEvent.attention i (p.seqLen - st.prefixSeqLen) st.prefixSeqLen :: B)) := by
  have hin : fwdInputSeqLen st 0 p.seqLen = p.seqLen - st.prefixSeqLen := by
    simp [fwdInputSeqLen, hps]
  have hpast : fwdPastSeqLen st 0 = st.prefixSeqLen := by
    simp [fwdPastSeqLen, hps]
  have hbatch : fwdBatchSize 0 p.userSideBS p.beamSize = p.userSideBS := by
    simp [fwdBatchSize]
  refine ⟨by rw [hstep]; exact hin,
    fun bs => prefix_split_row ids p.seqLen st.prefixSeqLen bs hle, ?_, ?_⟩
  · rw [forwardTrace_events]
    have hpre : fwdPreEvents st p
        = FwdEvent.positionIds p.userSideBS st.prefixSeqLen 0
            :: FwdEvent.embedding p.userSideBS (p.seqLen - st.prefixSeqLen)
            :: (FwdEvent.prepareMask (p.step + 1)
            :: FwdEvent.positionIds p.userSideBS (p.seqLen - st.prefixSeqLen) (p.step + 1)
            :: (if 0 < p.ppRank
                then [FwdEvent.mpiRecv (p.ppRank - 1) (100 * (p.ppRank - 1))] else [])) := by
      simp [fwdPreEvents, hstep, hps, hin, hpast, hbatch]
    rw [hpre]
    exact ⟨_, rfl⟩
  · rw [forwardTrace_events]
    unfold fwdBodyEvents
    rw [flatMap_range_split _ p.numLayers i hi]
    have hlay : layerEvents st p (fwdInputSeqLen st p.step p.seqLen) (fwdPastSeqLen st p.step) i
        = FwdEvent.expandPrefixCache i p.userSideBS st.prefixSeqLen
            :: FwdEvent.attention i (p.seqLen - st.prefixSeqLen) st.prefixSeqLen
            :: ((if p.step = 0 ∧ 1 < p.beamSize
                  then [FwdEvent.expandCache i p.userSideBS p.beamSize p.seqLen] else [])
                ++ (if p.parallelAttnMlp = false ∧ 1 < p.workers
                    then [FwdEvent.reduceAddAttn i] else [])
                ++ [FwdEvent.ffn i]
                ++ (if 1 < p.workers then [FwdEvent.reduceAddFfn i] else [])) := by
      simp [layerEvents, hstep, hps, hin, hpast]
    rw [hlay]
    refine ⟨fwdPreEvents st p
        ++ (List.range' 0 i).flatMap
            (layerEvents st p (fwdInputSeqLen st p.step p.seqLen) (fwdPastSeqLen st p.step)),
      ((if p.step = 0 ∧ 1 < p.beamSize
          then [FwdEvent.expandCache i p.userSideBS p.beamSize p.seqLen] else [])
        ++ (if p.parallelAttnMlp = false ∧ 1 < p.workers
            then [FwdEvent.reduceAddAttn i] else [])
        ++ [FwdEvent.ffn i]
        ++ (if 1 < p.workers then [FwdEvent.reduceAddFfn i] else []))
        ++ ((List.range' (i + 1) (p.numLayers - i - 1)).flatMap
              (layerEvents st p (fwdInputSeqLen st p.step p.seqLen) (fwdPastSeqLen st p.step))
            ++ (if p.ppRank < p.ppSize - 1
                then [FwdEvent.mpiSend (p.ppRank + 1) (100 * p.ppRank)] else [])), ?_⟩
    simp [List.append_assoc]

/-- Witness for `prefix_sharing_split`: `prefixSeqLen = 16`, prompt length 20,
`userSideBS = 2`, two local layers; checks `inputSeqLen = 20 - 16 = 4`. -/
theorem prefix_sharing_split_witness :
    (⟨0, 0, 16, true⟩ : SessionState).prefixSharing = true
      ∧ (⟨2, 1, 20, 0, false, 0, 1, 2, 1, false⟩ : FwdParams).step = 0
      ∧ (⟨0, 0, 16, true⟩ : SessionState).prefixSeqLen
          ≤ (⟨2, 1, 20, 0, false, 0, 1, 2, 1, false⟩ : FwdParams).seqLen
      ∧ 1 < (⟨2, 1, 20, 0, false, 0, 1, 2, 1, false⟩ : FwdParams).numLayers
      ∧ fwdInputSeqLen ⟨0, 0, 16, true⟩ 0 20 = 20 - 16
      ∧ fwdInputSeqLen ⟨0, 0, 16, true⟩ 0 20 = 4
      ∧ (∀ bs : Nat,
          prefixIdsRow (fun k => (k : Int)) 20 16 bs
              ++ newIdsRow (fun k => (k : Int)) 20 16 (20 - 16) bs
            = (List.range 20).map (fun j => ((20 * bs + j : Nat) : Int)))
      ∧ (∃ A B, (forwardTrace ⟨0, 0, 16, true⟩ ⟨2, 1, 20, 0, false, 0, 1, 2, 1, false⟩ 0 100).1
            = A ++ (FwdEvent.expandPrefixCache 1 2 16
                :: FwdEvent.attention 1 (20 - 16) 16 :: B)) :=
  ⟨by decide, by decide, by decide, by decide,
    (prefix_sharing_split ⟨0, 0, 16, true⟩ ⟨2, 1, 20, 0, false, 0, 1, 2, 1, false⟩ 0 100
        (fun k => (k : Int)) 1 (by decide) (by decide) (by decide) (by decide)).1,
    by decide,
    (prefix_sharing_split ⟨0, 0, 16, true⟩ ⟨2, 1, 20, 0, false, 0, 1, 2, 1, false⟩ 0 100
        (fun k => (k : Int)) 1 (by decide) (by decide) (by decide) (by decide)).2.1,
    (prefix_sharing_split ⟨0, 0, 16, true⟩ ⟨2, 1, 20, 0, false, 0, 1, 2, 1, false⟩ 0 100
        (fun k => (k : Int)) 1 (by decide) (by decide) (by decide) (by decide)).2.2.2⟩

end xft
